import Mathlib

/-!
Shallow embedding of `firmware-esp32/src/main.cpp` (ESP32 + HX711 scale
firmware) and verification of its specification claims.

Embedding conventions:
* C++ `long` / `int32_t` raw sensor values are embedded as `ℤ`.
* C++ `float` / `double` values are embedded as `ℚ` (exact arithmetic in
  place of IEEE rounding); decimal literals such as `0.08f` are embedded
  as the written decimal `8/100`.
* `uint32_t` millisecond timestamps are embedded as `ℕ`, with the
  wrap-around subtraction `now - ref` embedded explicitly modulo `2^32`.
* `stddev()` returns `sqrt(variance)`; since only the comparison
  `stddev() <= SD_THRESH_G` is ever used and both sides are nonnegative,
  the comparison is embedded square-free as `stddevSq <= SD_THRESH_G^2`.
* Serial output and NVS persistence are embedded as explicit event lists.
-/

/-! ## Configuration constants (lines 34-84 of main.cpp) -/

def MEDIAN_WINDOW : ℕ := 21

def IIR_ALPHA : ℚ := 8 / 100

def STABLE_DELTA_G : ℚ := 3

def STABLE_MS : ℕ := 1500

def SD_WINDOW : ℕ := 25

def SD_THRESH_G : ℚ := 3 / 2

def DEAD_BAND_G : ℚ := 20 / 100

def CMD_MAX_LEN : ℕ := 80

/-! ## Calibration state (globals `g_calFactor`, `g_tareOffset`) -/

/-- Calibration state: `g_calFactor` (raw units → grams) and
`g_tareOffset` (raw units representing zero weight). -/
structure CalibState where
  calFactor : ℚ
  tareOffset : ℤ
deriving DecidableEq

/-- Embedding of `rawToGrams`: `(raw - g_tareOffset) * g_calFactor`. -/
def rawToGrams (cal : CalibState) (raw : ℤ) : ℚ :=
  ((raw - cal.tareOffset : ℤ) : ℚ) * cal.calFactor

/-! ## RingBufferRaw (lines 97-128 of main.cpp) -/

/-- Embedding of class `RingBufferRaw`: fixed-capacity circular buffer of
raw samples. `buf` always has length `N` (zero-initialised by the
constructor). -/
structure RingBufferRaw where
  N : ℕ
  buf : List ℤ
  idx : ℕ
  count : ℕ
deriving DecidableEq

namespace RingBufferRaw

/-- Embedding of the `RingBufferRaw(size_t n)` constructor. -/
def init (n : ℕ) : RingBufferRaw :=
  ⟨n, List.replicate n 0, 0, 0⟩

/-- Embedding of `RingBufferRaw::add`. -/
def add (b : RingBufferRaw) (v : ℤ) : RingBufferRaw :=
  ⟨b.N, b.buf.set b.idx v, (b.idx + 1) % b.N,
   if b.count < b.N then b.count + 1 else b.count⟩

/-- Embedding of `RingBufferRaw::size`. -/
def size (b : RingBufferRaw) : ℕ := b.count

/-- Embedding of `RingBufferRaw::median`: copy the first `count` cells,
`std::sort` them, return the cell at index `count / 2` (0 when empty). -/
def median (b : RingBufferRaw) : ℤ :=
  if b.count = 0 then 0
  else ((b.buf.take b.count).insertionSort (· ≤ ·)).getD (b.count / 2) 0

end RingBufferRaw

/-- State of a `RingBufferRaw` after pushing the samples `xs` in order
into a freshly constructed buffer of capacity `n`. -/
def mkRB (n : ℕ) (xs : List ℤ) : RingBufferRaw :=
  xs.foldl RingBufferRaw.add (RingBufferRaw.init n)

/-- Contents of the window after pushing `xs`: the last `min |xs| n`
samples, in arrival order. -/
def windowOf (n : ℕ) (xs : List ℤ) : List ℤ :=
  xs.drop (xs.length - n)

/-! ## RingBufferFloat (lines 130-169 of main.cpp) -/

/-- Embedding of class `RingBufferFloat`: fixed-capacity circular buffer
of smoothed grams values. -/
structure RingBufferFloat where
  N : ℕ
  buf : List ℚ
  idx : ℕ
  count : ℕ
deriving DecidableEq

namespace RingBufferFloat

/-- Embedding of the `RingBufferFloat(size_t n)` constructor. -/
def init (n : ℕ) : RingBufferFloat :=
  ⟨n, List.replicate n 0, 0, 0⟩

/-- Embedding of `RingBufferFloat::add`. -/
def add (b : RingBufferFloat) (v : ℚ) : RingBufferFloat :=
  ⟨b.N, b.buf.set b.idx v, (b.idx + 1) % b.N,
   if b.count < b.N then b.count + 1 else b.count⟩

/-- Embedding of `RingBufferFloat::size`. -/
def size (b : RingBufferFloat) : ℕ := b.count

/-- Embedding of `RingBufferFloat::mean`. -/
def mean (b : RingBufferFloat) : ℚ :=
  if b.count = 0 then 0 else (b.buf.take b.count).sum / b.count

/-- Embedding of `RingBufferFloat::stddev`, squared. The source returns
`sqrt(acc / count)`; only the comparison against the nonnegative
threshold `SD_THRESH_G` is ever made, which is embedded square-free. -/
def stddevSq (b : RingBufferFloat) : ℚ :=
  if b.count = 0 then 0
  else ((b.buf.take b.count).map (fun x => (x - b.mean) ^ 2)).sum / b.count

end RingBufferFloat

/-! ## Loop state and one tick of `loop()` (lines 262-337 of main.cpp) -/

/-- The static locals of `loop()` that carry state across ticks, plus
`last_output` from the deadband block. -/
structure FilterState where
  rb : RingBufferRaw
  rb_g : RingBufferFloat
  first : Bool
  iir_value : ℚ
  lastStableRefMs : ℕ
  stable : Bool
  last_grams_for_delta : ℚ
  last_output : ℚ
deriving DecidableEq

/-- Initial values of the static locals of `loop()`. -/
def FilterState.init : FilterState :=
  ⟨RingBufferRaw.init MEDIAN_WINDOW, RingBufferFloat.init SD_WINDOW,
   true, 0, 0, false, 0, 0⟩

/-- Unsigned 32-bit wrap-around subtraction, embedding the `uint32_t`
expression `now - lastStableRefMs`. -/
def usub32 (a b : ℕ) : ℕ :=
  (a % 2 ^ 32 + 2 ^ 32 - b % 2 ^ 32) % 2 ^ 32

/-- Embedding of step 2 of `loop()`: the grams value computed on a tick
(median + IIR once the raw window holds at least 3 samples, cold-start
fallback on the raw sample otherwise). -/
def gramsAt (cal : CalibState) (s : FilterState) (raw : ℤ) : ℚ :=
  let rb' := s.rb.add raw
  if 3 ≤ rb'.size then
    let g := rawToGrams cal rb'.median
    if s.first then g else (1 - IIR_ALPHA) * s.iir_value + IIR_ALPHA * g
  else rawToGrams cal raw

/-- The smoothed-grams window after step 3 of `loop()` feeds it. -/
def rbgAfter (cal : CalibState) (s : FilterState) (raw : ℤ) : RingBufferFloat :=
  s.rb_g.add (gramsAt cal s raw)

/-- Embedding of `cond_delta` (line 300 of main.cpp). -/
def condDeltaAt (cal : CalibState) (s : FilterState) (raw : ℤ) : Bool :=
  decide (|gramsAt cal s raw - s.last_grams_for_delta| ≤ STABLE_DELTA_G)

/-- Embedding of `cond_time` (line 301 of main.cpp). -/
def condTimeAt (s : FilterState) (now : ℕ) : Bool :=
  decide (STABLE_MS ≤ usub32 now s.lastStableRefMs)

/-- Embedding of `cond_stddev` (lines 303-309 of main.cpp): defaults to
true, overwritten by the threshold test once the smoothed-grams window
holds at least `SD_WINDOW / 2` samples. -/
def condStdAt (cal : CalibState) (s : FilterState) (raw : ℤ) : Bool :=
  if SD_WINDOW / 2 ≤ (rbgAfter cal s raw).size then
    decide ((rbgAfter cal s raw).stddevSq ≤ SD_THRESH_G ^ 2)
  else true

/-- Embedding of one iteration of `loop()` steps 1-6 (sampling, median +
IIR, stddev window feed, stability, deadband, emission). Returns the new
filter state together with the emitted report `(out_grams, stable)`;
rendering `G:%.2f,S:%d` to text is outside the embedding. -/
def tick (cal : CalibState) (s : FilterState) (raw : ℤ) (now : ℕ) :
    FilterState × ℚ × Bool :=
  let grams := gramsAt cal s raw
  let rb' := s.rb.add raw
  let condOk := condDeltaAt cal s raw && condStdAt cal s raw
  let stable' := if condOk then (if condTimeAt s now then true else s.stable)
                 else false
  let out := if stable' && decide (|grams - s.last_output| < DEAD_BAND_G)
             then s.last_output else grams
  (⟨rb', rbgAfter cal s raw,
    if 3 ≤ rb'.size then false else s.first,
    if 3 ≤ rb'.size then grams else s.iir_value,
    if condOk then s.lastStableRefMs else now,
    stable',
    if condOk then s.last_grams_for_delta else grams,
    out⟩, out, stable')

/-- Filter state after running a list of ticks, each a pair
`(raw sample, millis)`. -/
def run (cal : CalibState) (s : FilterState) (ticks : List (ℤ × ℕ)) :
    FilterState :=
  ticks.foldl (fun s t => (tick cal s t.1 t.2).1) s

/-- Report lines emitted while running a list of ticks. -/
def runOut (cal : CalibState) (s : FilterState) :
    List (ℤ × ℕ) → List (ℚ × Bool)
  | [] => []
  | t :: ts =>
    (tick cal s t.1 t.2).2 :: runOut cal (tick cal s t.1 t.2).1 ts

/-- The delta and (gated) stddev conditions both hold on every tick of
the run, evaluated on the state reached at that tick. -/
def holdsAll (cal : CalibState) : FilterState → List (ℤ × ℕ) → Bool
  | _, [] => true
  | s, t :: ts =>
    (condDeltaAt cal s t.1 && condStdAt cal s t.1) &&
      holdsAll cal (tick cal s t.1 t.2).1 ts

/-- On every tick of the run, the tick ends stable and its grams value is
within the deadband of the previous emitted value. -/
def deadbandHold (cal : CalibState) : FilterState → List (ℤ × ℕ) → Bool
  | _, [] => true
  | s, t :: ts =>
    ((tick cal s t.1 t.2).2.2 &&
      decide (|gramsAt cal s t.1 - s.last_output| < DEAD_BAND_G)) &&
      deadbandHold cal (tick cal s t.1 t.2).1 ts

/-! ## Command protocol (lines 184-231 and 340-362 of main.cpp) -/

/-- NVS persistence calls made by a command handler. -/
inductive Persist where
  | putTare : ℤ → Persist
  | putCal : ℚ → Persist
deriving DecidableEq

/-- Lines written to `Serial1` by the command machinery. Payload-bearing
lines carry their exact value; fixed-point rendering is outside the
embedding. -/
inductive Resp where
  | ackT : Resp
  | ackC : ℚ → Resp
  | errCalWeight : Resp
  | errCalZero : Resp
  | errUnknown : Resp
  | errCmdLen : Resp
deriving DecidableEq

/-- Observable events of the inbound-byte drain: a `Serial1` response or
the invocation of `handleCommand` on an assembled line. -/
inductive Ev where
  | emit : Resp → Ev
  | dispatch : List Char → Ev
deriving DecidableEq

/-- Character class used by `String::trim` (C `isspace`). -/
def isSpaceB (c : Char) : Bool :=
  c == ' ' || c == '\t' || c == '\n' || c == '\x0b' || c == '\x0c' || c == '\r'

/-- Embedding of Arduino `String::trim`: strip leading and trailing
whitespace. -/
def trimC (l : List Char) : List Char :=
  ((l.dropWhile isSpaceB).reverse.dropWhile isSpaceB).reverse

/-- Two-character prefix test, embedding `String::startsWith("C:")`. -/
def startsWith2 (a b : Char) (l : List Char) : Bool :=
  match l with
  | c :: d :: _ => c == a && d == b
  | _ => false

/-- Consume a maximal run of decimal digits, returning the accumulated
value, the number of digits consumed, and the rest. -/
def takeDigitsAux : List Char → ℕ → ℕ → ℕ × ℕ × List Char
  | [], v, k => (v, k, [])
  | c :: cs, v, k =>
    if c.isDigit then takeDigitsAux cs (10 * v + (c.toNat - 48)) (k + 1)
    else (v, k, c :: cs)

/-- Result of scanning a decimal number: sign, integer digits value,
fraction digits value and width, exponent, and whether any digit was
converted at all. -/
structure FloatParse where
  neg : Bool
  ip : ℕ
  fp : ℕ
  fk : ℕ
  ex : ℤ
  ok : Bool
deriving DecidableEq

/-- Scanner part of Arduino `String::toFloat` (C `strtod`) on its decimal
forms: optional whitespace and sign, digits with an optional fractional
part, optional decimal exponent. -/
def parseFloatRaw (l : List Char) : FloatParse :=
  let l0 := l.dropWhile isSpaceB
  let sr : Bool × List Char :=
    match l0 with
    | '-' :: r => (true, r)
    | '+' :: r => (false, r)
    | r => (false, r)
  let ip := takeDigitsAux sr.2 0 0
  let fp : ℕ × ℕ × List Char :=
    match ip.2.2 with
    | '.' :: r => takeDigitsAux r 0 0
    | r => (0, 0, r)
  let e : ℤ :=
    match fp.2.2 with
    | c :: rest =>
      if c == 'e' || c == 'E' then
        match rest with
        | '-' :: r2 =>
          let ev := takeDigitsAux r2 0 0
          if ev.2.1 = 0 then 0 else -(ev.1 : ℤ)
        | '+' :: r2 =>
          let ev := takeDigitsAux r2 0 0
          if ev.2.1 = 0 then 0 else (ev.1 : ℤ)
        | r2 =>
          let ev := takeDigitsAux r2 0 0
          if ev.2.1 = 0 then 0 else (ev.1 : ℤ)
      else 0
    | [] => 0
  ⟨sr.1, ip.1, fp.1, fp.2.1, e, !(ip.2.1 == 0 && fp.2.1 == 0)⟩

/-- Embedding of Arduino `String::toFloat` (C `strtod`) on its decimal
forms; 0 when no digits were converted. -/
def toFloatQ (l : List Char) : ℚ :=
  let p := parseFloatRaw l
  if p.ok then
    (if p.neg then (-1 : ℚ) else 1) *
      ((p.ip : ℚ) + (p.fp : ℚ) / (10 ^ p.fk : ℚ)) * (10 : ℚ) ^ p.ex
  else 0

/-- Embedding of the 20-sample accumulation in the `C:` handler: the raw
sensor is modelled as a stream `ℕ → ℤ` read at a cursor. -/
def calAcc (stream : ℕ → ℤ) (cur : ℕ) : ℤ :=
  (List.range 20).foldl (fun a i => a + stream (cur + i)) 0

/-- Net raw reading of the `C:` handler: the 20-sample average (C++
`long` division truncates toward zero) minus the tare offset. -/
def calNetRaw (stream : ℕ → ℤ) (cal : CalibState) (cur : ℕ) : ℤ :=
  (calAcc stream cur).tdiv 20 - cal.tareOffset

/-- Embedding of `handleCommand`. Returns the new calibration state, the
new raw-stream cursor, the persistence calls and the `Serial1`
responses. -/
def handleCommand (stream : ℕ → ℤ) (cal : CalibState) (cur : ℕ)
    (line : List Char) : CalibState × ℕ × List Persist × List Resp :=
  if line.length = 0 then (cal, cur, [], [])
  else if line = ['T'] ∨ line = ['t'] then
    ({ cal with tareOffset := stream cur }, cur + 1,
     [.putTare (stream cur)], [.ackT])
  else if startsWith2 'C' ':' line || startsWith2 'c' ':' line then
    let peso := toFloatQ (trimC (line.drop 2))
    if peso ≤ 0 then (cal, cur, [], [.errCalWeight])
    else
      let r_net := calNetRaw stream cal cur
      if r_net = 0 then (cal, cur + 20, [], [.errCalZero])
      else
        ({ cal with calFactor := peso / (r_net : ℚ) }, cur + 20,
         [.putCal (peso / (r_net : ℚ))], [.ackC (peso / (r_net : ℚ))])
  else (cal, cur, [], [.errUnknown])

/-- State threaded through the inbound-byte drain of `loop()` step 7:
calibration state, raw-stream cursor, and the globals `cmdLine`,
`cmdOverflow`. -/
structure SerialState where
  cal : CalibState
  cur : ℕ
  cmdLine : List Char
  cmdOverflow : Bool
deriving DecidableEq

/-- Line-terminator test of the drain loop (line 342 of main.cpp). -/
def isTermB (c : Char) : Bool := c == '\r' || c == '\n'

/-- Embedding of one iteration of the `while (Serial1.available())` drain
loop (lines 340-362 of main.cpp), processing one inbound byte. -/
def drainByte (stream : ℕ → ℤ) (st : SerialState) (c : Char) :
    SerialState × List Ev :=
  if isTermB c then
    if st.cmdOverflow then
      ({ st with cmdLine := [], cmdOverflow := false }, [.emit .errCmdLen])
    else
      let t := trimC st.cmdLine
      if 0 < t.length then
        let r := handleCommand stream st.cal st.cur t
        (⟨r.1, r.2.1, [], false⟩, .dispatch t :: r.2.2.2.map .emit)
      else ({ st with cmdLine := [], cmdOverflow := false }, [])
  else
    if !st.cmdOverflow then
      if st.cmdLine.length < CMD_MAX_LEN then
        ({ st with cmdLine := st.cmdLine ++ [c] }, [])
      else ({ st with cmdOverflow := true }, [])
    else (st, [])

/-- Drain a sequence of inbound bytes, collecting all events. -/
def drainBytes (stream : ℕ → ℤ) (st : SerialState) :
    List Char → SerialState × List Ev
  | [] => (st, [])
  | c :: cs =>
    let r := drainByte stream st c
    let r2 := drainBytes stream r.1 cs
    (r2.1, r.2 ++ r2.2)

/-- Pure accumulation action of the drain on a non-terminator byte,
acting on the pair `(cmdLine, cmdOverflow)`. -/
def accumCh (p : List Char × Bool) (c : Char) : List Char × Bool :=
  if !p.2 then
    if p.1.length < CMD_MAX_LEN then (p.1 ++ [c], p.2) else (p.1, true)
  else p

/-! ## Lemmas about the circular raw buffer -/

lemma mkRB_append (n : ℕ) (xs : List ℤ) (v : ℤ) :
    mkRB n (xs ++ [v]) = (mkRB n xs).add v := by
  simp [mkRB, List.foldl_append]

lemma foldl_add_N (xs : List ℤ) (b : RingBufferRaw) :
    (xs.foldl RingBufferRaw.add b).N = b.N := by
  induction xs generalizing b with
  | nil => rfl
  | cons x xs ih => simpa [RingBufferRaw.add] using ih (b.add x)

lemma foldl_add_buf_length (xs : List ℤ) (b : RingBufferRaw) :
    (xs.foldl RingBufferRaw.add b).buf.length = b.buf.length := by
  induction xs generalizing b with
  | nil => rfl
  | cons x xs ih => simpa [RingBufferRaw.add] using ih (b.add x)

lemma mkRB_N (n : ℕ) (xs : List ℤ) : (mkRB n xs).N = n := by
  simp [mkRB, foldl_add_N, RingBufferRaw.init]

lemma mkRB_buf_length (n : ℕ) (xs : List ℤ) : (mkRB n xs).buf.length = n := by
  simp [mkRB, foldl_add_buf_length, RingBufferRaw.init]

lemma mkRB_count (n : ℕ) (xs : List ℤ) :
    (mkRB n xs).count = min xs.length n := by
  induction xs using List.reverseRecOn with
  | nil => simp [mkRB, RingBufferRaw.init]
  | append_singleton xs v ih =>
      rw [mkRB_append]
      simp only [RingBufferRaw.add, ih, mkRB_N, List.length_append,
        List.length_singleton]
      rcases le_or_lt n xs.length with h | h
      · rw [if_neg (by omega)]; omega
      · rw [if_pos (by omega)]; omega

lemma mkRB_idx (n : ℕ) (xs : List ℤ) :
    (mkRB n xs).idx = xs.length % n := by
  induction xs using List.reverseRecOn with
  | nil => simp [mkRB, RingBufferRaw.init]
  | append_singleton xs v ih =>
      rw [mkRB_append]
      simp only [RingBufferRaw.add, ih, mkRB_N, List.length_append,
        List.length_singleton]
      conv_rhs => rw [Nat.add_mod]
      rw [Nat.add_mod (xs.length % n) 1, Nat.mod_mod_of_dvd _ dvd_rfl]

lemma mkRB_buf_notfull (n : ℕ) (xs : List ℤ) (h : xs.length ≤ n) :
    (mkRB n xs).buf = xs ++ List.replicate (n - xs.length) 0 := by
  induction xs using List.reverseRecOn with
  | nil => simp [mkRB, RingBufferRaw.init]
  | append_singleton xs v ih =>
      have hx : xs.length < n := by simp at h; omega
      rw [mkRB_append]
      simp only [RingBufferRaw.add]
      rw [ih (le_of_lt hx), mkRB_idx, Nat.mod_eq_of_lt hx, List.set_append,
        if_neg (lt_irrefl _), Nat.sub_self]
      have hrep : n - xs.length = (n - (xs.length + 1)) + 1 := by omega
      rw [hrep, List.replicate_succ]
      simp [List.append_assoc]

lemma rotate_set_tail (l : List ℤ) (i : ℕ) (v : ℤ) (h : i < l.length) :
    (l.set i v).rotate ((i + 1) % l.length) = (l.rotate i).tail ++ [v] := by
  have hn : 0 < l.length := by omega
  apply List.ext_getElem
  · simp [List.length_tail]
    omega
  · intro j h1 h2
    have hj : j < l.length := by
      simpa [List.length_rotate, List.length_set] using h1
    rw [List.getElem_rotate]
    simp only [List.length_set, Nat.add_mod_mod, ← Nat.add_assoc]
    by_cases hj1 : j = l.length - 1
    · subst hj1
      have hK : (l.length - 1 + i + 1) % l.length = i := by
        have hh : l.length - 1 + i + 1 = l.length + i := by omega
        rw [hh, Nat.add_mod_left, Nat.mod_eq_of_lt h]
      simp only [hK]
      rw [List.getElem_set, if_pos rfl]
      rw [List.getElem_append_right
        (by simp [List.length_tail, List.length_rotate])]
      simp [List.length_tail, List.length_rotate]
    · have hKne : (j + i + 1) % l.length ≠ i := by
        rcases lt_or_ge (j + i + 1) l.length with hc | hc
        · rw [Nat.mod_eq_of_lt hc]; omega
        · rw [Nat.mod_eq_sub_mod hc, Nat.mod_eq_of_lt (by omega)]; omega
      rw [List.getElem_set, if_neg (fun he => hKne he.symm)]
      rw [List.getElem_append_left
        (by simp [List.length_tail, List.length_rotate]; omega)]
      rw [List.getElem_tail, List.getElem_rotate]
      have hidx : (j + 1 + i) % l.length = (j + i + 1) % l.length := by
        congr 1
        omega
      simp only [hidx]

lemma mkRB_rotate_full (n : ℕ) (hn : 0 < n) (xs : List ℤ)
    (h : n ≤ xs.length) :
    (mkRB n xs).buf.rotate (mkRB n xs).idx = xs.drop (xs.length - n) := by
  induction xs using List.reverseRecOn with
  | nil => simp at h; omega
  | append_singleton xs v ih =>
      rcases lt_or_ge xs.length n with hlt | hge
      · have hlen : xs.length + 1 = n := by simp at h; omega
        rw [mkRB_buf_notfull n (xs ++ [v]) (by simp; omega), mkRB_idx]
        simp [← hlen]
      · have ih' := ih hge
        rw [mkRB_append]
        simp only [RingBufferRaw.add, mkRB_N, mkRB_idx]
        have hkey := rotate_set_tail (mkRB n xs).buf (xs.length % n) v
          (by rw [mkRB_buf_length]; exact Nat.mod_lt _ hn)
        rw [mkRB_buf_length] at hkey
        rw [hkey, ← mkRB_idx, ih']
        rw [List.length_append, List.length_singleton]
        have h1 : xs.length + 1 - n = (xs.length - n) + 1 := by omega
        rw [h1, List.drop_append_of_le_length (by omega)]
        congr 1
        rw [← List.drop_drop, List.drop_one]

lemma mkRB_take_perm (n : ℕ) (hn : 0 < n) (xs : List ℤ) :
    ((mkRB n xs).buf.take (mkRB n xs).count).Perm (windowOf n xs) := by
  rcases le_or_lt xs.length n with h | h
  · rw [mkRB_buf_notfull n xs h, mkRB_count]
    have hm : min xs.length n = xs.length := by omega
    rw [hm, List.take_left]
    unfold windowOf
    rw [Nat.sub_eq_zero_of_le h, List.drop_zero]
  · have hc : (mkRB n xs).count = n := by rw [mkRB_count]; omega
    rw [hc, List.take_of_length_le (le_of_eq (mkRB_buf_length n xs))]
    have hfull := mkRB_rotate_full n hn xs (le_of_lt h)
    unfold windowOf
    rw [← hfull]
    exact (List.rotate_perm _ _).symm

/-- C5: for every sequence of raw samples pushed via `add` into the fixed
odd-capacity circular window, `median()` returns exactly the middle
element (index `count / 2`) of the sorted copy of the current window
contents — the last `min |xs| n` samples once full, the true count of
held samples while not yet full. -/
theorem median_correct (n : ℕ) (xs : List ℤ) (hodd : Odd n)
    (hne : xs ≠ []) :
    (mkRB n xs).median =
      ((windowOf n xs).insertionSort (· ≤ ·)).getD (min xs.length n / 2) 0 := by
  have hn : 0 < n := hodd.pos
  have hxs : 0 < xs.length := List.length_pos.mpr hne
  have hc : (mkRB n xs).count = min xs.length n := mkRB_count n xs
  have hc0 : ¬(mkRB n xs).count = 0 := by rw [hc]; omega
  unfold RingBufferRaw.median
  rw [if_neg hc0, hc]
  congr 1
  refine List.eq_of_perm_of_sorted ?_ (List.sorted_insertionSort _ _)
    (List.sorted_insertionSort _ _)
  have hperm : ((mkRB n xs).buf.take (min xs.length n)).Perm (windowOf n xs) := by
    rw [← hc]
    exact mkRB_take_perm n hn xs
  exact (List.perm_insertionSort _ _).trans
    (hperm.trans (List.perm_insertionSort _ _).symm)

/-- Witness for C5 at capacity 3 and samples `[5, 1, 9]`. -/
theorem median_correct_witness :
    Odd 3 ∧ ([5, 1, 9] : List ℤ) ≠ [] ∧
      (mkRB 3 [5, 1, 9]).median =
        ((windowOf 3 [5, 1, 9]).insertionSort (· ≤ ·)).getD
          (min (List.length [5, 1, 9]) 3 / 2) 0 :=
  ⟨by decide, by decide, median_correct 3 [5, 1, 9] (by decide) (by decide)⟩

/-! ## Lemmas about one tick and runs of ticks -/

lemma run_nil (cal : CalibState) (s : FilterState) : run cal s [] = s := rfl

lemma run_cons (cal : CalibState) (s : FilterState) (t : ℤ × ℕ)
    (ts : List (ℤ × ℕ)) :
    run cal s (t :: ts) = run cal (tick cal s t.1 t.2).1 ts := rfl

lemma tick_of_condOk (cal : CalibState) (s : FilterState) (raw : ℤ) (now : ℕ)
    (h : (condDeltaAt cal s raw && condStdAt cal s raw) = true) :
    (tick cal s raw now).1.stable
        = (if condTimeAt s now then true else s.stable) ∧
      (tick cal s raw now).1.lastStableRefMs = s.lastStableRefMs ∧
      (tick cal s raw now).1.last_grams_for_delta = s.last_grams_for_delta := by
  simp [tick, h]

lemma tick_of_violation (cal : CalibState) (s : FilterState) (raw : ℤ)
    (now : ℕ)
    (h : (condDeltaAt cal s raw && condStdAt cal s raw) = false) :
    (tick cal s raw now).1.stable = false ∧
      (tick cal s raw now).1.lastStableRefMs = now ∧
      (tick cal s raw now).1.last_grams_for_delta = gramsAt cal s raw := by
  simp [tick, h]

lemma run_stable_aux (cal : CalibState) (ticks : List (ℤ × ℕ)) :
    ∀ s : FilterState, s.stable = true → holdsAll cal s ticks = true →
      (run cal s ticks).stable = true ∧
      (run cal s ticks).lastStableRefMs = s.lastStableRefMs ∧
      (run cal s ticks).last_grams_for_delta = s.last_grams_for_delta := by
  induction ticks with
  | nil => intro s h1 _; exact ⟨h1, rfl, rfl⟩
  | cons t ts ih =>
      intro s hs hall
      simp only [holdsAll, Bool.and_eq_true] at hall
      obtain ⟨⟨hc1, hc2⟩, hrest⟩ := hall
      have hcond : (condDeltaAt cal s t.1 && condStdAt cal s t.1) = true := by
        simp [hc1, hc2]
      have hrest : holdsAll cal (tick cal s t.1 t.2).1 ts = true := by
        simpa [Bool.and_eq_true] using hrest
      have hstep := tick_of_condOk cal s t.1 t.2 hcond
      have hs' : (tick cal s t.1 t.2).1.stable = true := by
        rw [hstep.1]
        split <;> simp [hs]
      have hrec := ih (tick cal s t.1 t.2).1 hs' hrest
      rw [run_cons]
      exact ⟨hrec.1, by rw [hrec.2.1, hstep.2.1],
        by rw [hrec.2.2, hstep.2.2]⟩

/-- C1: once `stable` is true it stays true on every tick of a run on
which the delta condition and the (gated) stddev condition keep holding,
and the reference timestamp and reference value are not reset along such
a run; on any single tick where the combined condition is violated,
`stable` is set to false, the reference timestamp is reset to the current
time and the reference value is reset to the current grams value. -/
theorem stability_sticky_reset (cal : CalibState) (s : FilterState) :
    (∀ ticks : List (ℤ × ℕ), s.stable = true →
      holdsAll cal s ticks = true →
      (run cal s ticks).stable = true ∧
      (run cal s ticks).lastStableRefMs = s.lastStableRefMs ∧
      (run cal s ticks).last_grams_for_delta = s.last_grams_for_delta) ∧
    (∀ (raw : ℤ) (now : ℕ),
      (condDeltaAt cal s raw && condStdAt cal s raw) = false →
      (tick cal s raw now).1.stable = false ∧
      (tick cal s raw now).1.lastStableRefMs = now ∧
      (tick cal s raw now).1.last_grams_for_delta = gramsAt cal s raw) :=
  ⟨fun ticks hs hall => run_stable_aux cal ticks s hs hall,
   fun raw now h => tick_of_violation cal s raw now h⟩

/-- C7: the stddev test is consulted exactly when the smoothed-grams
window holds at least half its capacity (`SD_WINDOW / 2` in integer
division); with fewer samples the condition is treated as true, so the
stability decision on such a tick is determined by the delta and time
conditions alone. -/
theorem stddev_gate (cal : CalibState) (s : FilterState) (raw : ℤ)
    (now : ℕ) :
    ((rbgAfter cal s raw).size < SD_WINDOW / 2 →
      condStdAt cal s raw = true ∧
      (tick cal s raw now).1.stable =
        (if condDeltaAt cal s raw then
          (if condTimeAt s now then true else s.stable) else false)) ∧
    (SD_WINDOW / 2 ≤ (rbgAfter cal s raw).size →
      condStdAt cal s raw =
        decide ((rbgAfter cal s raw).stddevSq ≤ SD_THRESH_G ^ 2)) := by
  constructor
  · intro h
    have hstd : condStdAt cal s raw = true := by
      unfold condStdAt
      rw [if_neg (by omega)]
    refine ⟨hstd, ?_⟩
    simp [tick, hstd]
  · intro h
    unfold condStdAt
    rw [if_pos h]

/-- Witness for C7: both sides of the gate at concrete states (window
holding 1 sample, and window holding 12 = 25/2 samples). -/
theorem stddev_gate_witness :
    (condStdAt ⟨1, 0⟩ FilterState.init 0 = true ∧
      (tick ⟨1, 0⟩ FilterState.init 0 0).1.stable =
        (if condDeltaAt ⟨1, 0⟩ FilterState.init 0 then
          (if condTimeAt FilterState.init 0 then true
           else FilterState.init.stable) else false)) ∧
    (condStdAt ⟨1, 0⟩
        { FilterState.init with rb_g := ⟨25, List.replicate 25 0, 11, 11⟩ } 0 =
      decide ((rbgAfter ⟨1, 0⟩
          { FilterState.init with rb_g := ⟨25, List.replicate 25 0, 11, 11⟩ }
          0).stddevSq ≤ SD_THRESH_G ^ 2)) :=
  ⟨(stddev_gate ⟨1, 0⟩ FilterState.init 0 0).1 (by decide),
   (stddev_gate ⟨1, 0⟩
      { FilterState.init with rb_g := ⟨25, List.replicate 25 0, 11, 11⟩ }
      0 0).2 (by decide)⟩

lemma tick_deadband_freeze (cal : CalibState) (s : FilterState) (raw : ℤ)
    (now : ℕ) (h1 : (tick cal s raw now).2.2 = true)
    (h2 : |gramsAt cal s raw - s.last_output| < DEAD_BAND_G) :
    (tick cal s raw now).2.1 = s.last_output ∧
      (tick cal s raw now).1.last_output = s.last_output := by
  simp only [tick] at h1 ⊢
  rw [h1]
  simp [h2]

lemma tick_deadband_pass (cal : CalibState) (s : FilterState) (raw : ℤ)
    (now : ℕ)
    (h : (tick cal s raw now).2.2 = false ∨
      DEAD_BAND_G ≤ |gramsAt cal s raw - s.last_output|) :
    (tick cal s raw now).2.1 = gramsAt cal s raw ∧
      (tick cal s raw now).1.last_output = gramsAt cal s raw := by
  rcases h with h | h
  · simp only [tick] at h ⊢
    rw [h]
    simp
  · have hd : decide (|gramsAt cal s raw - s.last_output| < DEAD_BAND_G)
        = false := by simp [not_lt.mpr h]
    simp only [tick]
    rw [hd]
    simp

lemma run_deadband_aux (cal : CalibState) (ticks : List (ℤ × ℕ)) :
    ∀ s : FilterState, deadbandHold cal s ticks = true →
      (∀ o ∈ runOut cal s ticks, o.1 = s.last_output) ∧
      (run cal s ticks).last_output = s.last_output := by
  induction ticks with
  | nil => intro s _; exact ⟨by simp [runOut], rfl⟩
  | cons t ts ih =>
      intro s hall
      simp only [deadbandHold, Bool.and_eq_true] at hall
      obtain ⟨⟨h1, h2⟩, hrest⟩ := hall
      have h2' : |gramsAt cal s t.1 - s.last_output| < DEAD_BAND_G :=
        of_decide_eq_true h2
      have hfreeze := tick_deadband_freeze cal s t.1 t.2 h1 h2'
      have hrest' : deadbandHold cal (tick cal s t.1 t.2).1 ts = true := by
        simpa [Bool.and_eq_true] using hrest
      have hrec := ih (tick cal s t.1 t.2).1 hrest'
      constructor
      · intro o ho
        simp only [runOut, List.mem_cons] at ho
        rcases ho with ho | ho
        · rw [ho]
          exact hfreeze.1
        · rw [hrec.1 o ho, hfreeze.2]
      · rw [run_cons, hrec.2, hfreeze.2]

/-- C8: along any run of ticks on which the tick ends stable and the new
grams value stays strictly within the deadband of the last emitted
value, every emitted value equals (and the last-emitted register stays
at) the initial last-emitted value; on a tick that ends not stable, or
whose change reaches the deadband, the smoothed value itself is emitted
and becomes the new last-emitted value. -/
theorem deadband_idempotent (cal : CalibState) (s : FilterState) :
    (∀ ticks : List (ℤ × ℕ), deadbandHold cal s ticks = true →
      (∀ o ∈ runOut cal s ticks, o.1 = s.last_output) ∧
      (run cal s ticks).last_output = s.last_output) ∧
    (∀ (raw : ℤ) (now : ℕ),
      (tick cal s raw now).2.2 = false ∨
        DEAD_BAND_G ≤ |gramsAt cal s raw - s.last_output| →
      (tick cal s raw now).2.1 = gramsAt cal s raw ∧
      (tick cal s raw now).1.last_output = gramsAt cal s raw) :=
  ⟨fun ticks hall => run_deadband_aux cal ticks s hall,
   fun raw now h => tick_deadband_pass cal s raw now h⟩

/-- C9: `median()` on an empty window returns 0 (total, no out-of-bounds
read), and the orchestrator takes the median path only when the raw
window holds at least 3 samples, in which case the window is nonempty;
below 3 samples the raw sample is converted directly. -/
theorem median_empty_safe :
    (∀ b : RingBufferRaw, b.count = 0 → b.median = 0) ∧
    (∀ (cal : CalibState) (s : FilterState) (raw : ℤ),
      ¬3 ≤ (s.rb.add raw).size → gramsAt cal s raw = rawToGrams cal raw) ∧
    (∀ (cal : CalibState) (s : FilterState) (raw : ℤ),
      3 ≤ (s.rb.add raw).size →
      (s.rb.add raw).count ≠ 0 ∧
      gramsAt cal s raw =
        (if s.first then rawToGrams cal (s.rb.add raw).median
         else (1 - IIR_ALPHA) * s.iir_value
           + IIR_ALPHA * rawToGrams cal (s.rb.add raw).median)) := by
  refine ⟨?_, ?_, ?_⟩
  · intro b h
    unfold RingBufferRaw.median
    rw [if_pos h]
  · intro cal s raw h
    simp only [gramsAt]
    rw [if_neg h]
  · intro cal s raw h
    refine ⟨?_, ?_⟩
    · simp only [RingBufferRaw.size] at h
      omega
    · simp only [gramsAt]
      rw [if_pos h]

/-- Witness for C1: a stable state holds through a quiet tick, and a
100 g jump resets it. -/
theorem stability_sticky_reset_witness :
    ((run ⟨1, 0⟩ { FilterState.init with stable := true }
        [((0 : ℤ), (0 : ℕ))]).stable = true ∧
     (run ⟨1, 0⟩ { FilterState.init with stable := true }
        [((0 : ℤ), (0 : ℕ))]).lastStableRefMs
       = ({ FilterState.init with stable := true } : FilterState).lastStableRefMs ∧
     (run ⟨1, 0⟩ { FilterState.init with stable := true }
        [((0 : ℤ), (0 : ℕ))]).last_grams_for_delta
       = ({ FilterState.init with stable := true } : FilterState).last_grams_for_delta) ∧
    ((tick ⟨1, 0⟩ { FilterState.init with stable := true } 100 5).1.stable = false ∧
     (tick ⟨1, 0⟩ { FilterState.init with stable := true } 100 5).1.lastStableRefMs = 5 ∧
     (tick ⟨1, 0⟩ { FilterState.init with stable := true } 100 5).1.last_grams_for_delta
       = gramsAt ⟨1, 0⟩ { FilterState.init with stable := true } 100) :=
  ⟨(stability_sticky_reset ⟨1, 0⟩ _).1 [((0 : ℤ), (0 : ℕ))] rfl
      (by norm_num [holdsAll, condDeltaAt, condStdAt, rbgAfter, gramsAt,
        rawToGrams, FilterState.init, RingBufferRaw.init, RingBufferRaw.add,
        RingBufferRaw.size, RingBufferFloat.init, RingBufferFloat.add,
        RingBufferFloat.size, MEDIAN_WINDOW, SD_WINDOW, STABLE_DELTA_G]),
   (stability_sticky_reset ⟨1, 0⟩ _).2 100 5
      (by norm_num [condDeltaAt, condStdAt, rbgAfter, gramsAt, rawToGrams,
        FilterState.init, RingBufferRaw.init, RingBufferRaw.add,
        RingBufferRaw.size, RingBufferFloat.init, RingBufferFloat.add,
        RingBufferFloat.size, MEDIAN_WINDOW, SD_WINDOW, STABLE_DELTA_G])⟩

/-- Witness for C8: a quiet stable tick freezes the output at the last
emitted value, and a 100 g jump is passed through. -/
theorem deadband_idempotent_witness :
    (run ⟨1, 0⟩ { FilterState.init with stable := true }
        [((0 : ℤ), (0 : ℕ))]).last_output
      = ({ FilterState.init with stable := true } : FilterState).last_output ∧
    (tick ⟨1, 0⟩ { FilterState.init with stable := true } 100 5).2.1
      = gramsAt ⟨1, 0⟩ { FilterState.init with stable := true } 100 :=
  ⟨((deadband_idempotent ⟨1, 0⟩ _).1 [((0 : ℤ), (0 : ℕ))]
      (by norm_num [deadbandHold, tick, condDeltaAt, condStdAt, rbgAfter,
        gramsAt, rawToGrams, FilterState.init, RingBufferRaw.init,
        RingBufferRaw.add, RingBufferRaw.size, RingBufferFloat.init,
        RingBufferFloat.add, RingBufferFloat.size, MEDIAN_WINDOW, SD_WINDOW,
        STABLE_DELTA_G, DEAD_BAND_G])).2,
   ((deadband_idempotent ⟨1, 0⟩ _).2 100 5
      (Or.inr (by norm_num [gramsAt, rawToGrams, FilterState.init,
        RingBufferRaw.init, RingBufferRaw.add, RingBufferRaw.size,
        MEDIAN_WINDOW, DEAD_BAND_G]))).1⟩

/-- Witness for C9: the empty window, a first-tick fallback, and a warm
window of 5 samples. -/
theorem median_empty_safe_witness :
    (RingBufferRaw.init 21).median = 0 ∧
    gramsAt ⟨1, 0⟩ FilterState.init 7 = rawToGrams ⟨1, 0⟩ 7 ∧
    ((({ FilterState.init with rb := ⟨21, List.replicate 21 0, 5, 5⟩ } :
        FilterState).rb.add 7).count ≠ 0 ∧
      gramsAt ⟨1, 0⟩
          { FilterState.init with rb := ⟨21, List.replicate 21 0, 5, 5⟩ } 7 =
        (if ({ FilterState.init with
              rb := ⟨21, List.replicate 21 0, 5, 5⟩ } : FilterState).first then
          rawToGrams ⟨1, 0⟩
            ((({ FilterState.init with
                rb := ⟨21, List.replicate 21 0, 5, 5⟩ } :
              FilterState).rb.add 7)).median
         else (1 - IIR_ALPHA) *
             ({ FilterState.init with
               rb := ⟨21, List.replicate 21 0, 5, 5⟩ } : FilterState).iir_value
           + IIR_ALPHA * rawToGrams ⟨1, 0⟩
             ((({ FilterState.init with
                 rb := ⟨21, List.replicate 21 0, 5, 5⟩ } :
               FilterState).rb.add 7)).median)) :=
  ⟨median_empty_safe.1 (RingBufferRaw.init 21) rfl,
   median_empty_safe.2.1 ⟨1, 0⟩ FilterState.init 7 (by decide),
   median_empty_safe.2.2 ⟨1, 0⟩
     { FilterState.init with rb := ⟨21, List.replicate 21 0, 5, 5⟩ } 7
     (by decide)⟩

/-! ## Command handler claims -/

/-- C6: for a `T` or `t` line the handler reads exactly one raw sample,
sets `tareOffset` to exactly that value, persists it, responds with the
single line `ACK:T`, and leaves `calFactor` unchanged. -/
theorem tare_cmd (stream : ℕ → ℤ) (cal : CalibState) (cur : ℕ)
    (line : List Char) (h : line = ['T'] ∨ line = ['t']) :
    handleCommand stream cal cur line =
      ({ cal with tareOffset := stream cur }, cur + 1,
       [.putTare (stream cur)], [.ackT]) ∧
    (handleCommand stream cal cur line).1.calFactor = cal.calFactor := by
  rcases h with h | h <;> subst h <;>
    exact ⟨by simp [handleCommand], by simp [handleCommand]⟩

/-- Witness for C6 with a constant raw stream of 1000. -/
theorem tare_cmd_witness :
    handleCommand (fun _ => 1000) ⟨1, 0⟩ 0 ['T'] =
      ({ calFactor := 1, tareOffset := 1000 }, 1,
       [.putTare 1000], [.ackT]) ∧
    (handleCommand (fun _ => 1000) ⟨1, 0⟩ 0 ['T']).1.calFactor = 1 :=
  tare_cmd (fun _ => 1000) ⟨1, 0⟩ 0 ['T'] (Or.inl rfl)

lemma handleCommand_calibrate_pos (stream : ℕ → ℤ) (cal : CalibState)
    (cur : ℕ) (line rest : List Char)
    (hl : line = 'C' :: ':' :: rest ∨ line = 'c' :: ':' :: rest)
    (hw : 0 < toFloatQ (trimC rest))
    (hz : calNetRaw stream cal cur ≠ 0) :
    handleCommand stream cal cur line =
      ({ cal with calFactor :=
          toFloatQ (trimC rest) / (calNetRaw stream cal cur : ℚ) }, cur + 20,
       [.putCal (toFloatQ (trimC rest) / (calNetRaw stream cal cur : ℚ))],
       [.ackC (toFloatQ (trimC rest) / (calNetRaw stream cal cur : ℚ))]) := by
  have hw' : ¬toFloatQ (trimC rest) ≤ 0 := not_le.mpr hw
  rcases hl with hl | hl <;> subst hl <;>
    simp [handleCommand, startsWith2, hw', hz]

/-- C2: for a `C:<weight>` line whose weight parses to a positive value,
when the net raw reading (20-sample truncated average minus the tare
offset) is nonzero, the handler sets `calFactor = weight / netRaw`,
persists it, and responds with the single line `ACK:C:` carrying the new
factor. -/
theorem calibrate_success (stream : ℕ → ℤ) (cal : CalibState) (cur : ℕ)
    (line rest : List Char)
    (hl : line = 'C' :: ':' :: rest ∨ line = 'c' :: ':' :: rest)
    (hw : 0 < toFloatQ (trimC rest))
    (hz : calNetRaw stream cal cur ≠ 0) :
    handleCommand stream cal cur line =
      ({ cal with calFactor :=
          toFloatQ (trimC rest) / (calNetRaw stream cal cur : ℚ) }, cur + 20,
       [.putCal (toFloatQ (trimC rest) / (calNetRaw stream cal cur : ℚ))],
       [.ackC (toFloatQ (trimC rest) / (calNetRaw stream cal cur : ℚ))]) :=
  handleCommand_calibrate_pos stream cal cur line rest hl hw hz

/-- C3: the Calibrate command fails exactly when its precondition is
violated — a non-positive or unparsable weight yields exactly
`ERR:CAL:weight`, a zero net raw reading yields exactly `ERR:CAL:zero`,
and in both failure cases the calibration state is unchanged and nothing
is persisted; when the precondition holds, the acknowledgement (not an
error) is emitted and the factor is persisted. -/
theorem calibrate_error_atomic (stream : ℕ → ℤ) (cal : CalibState)
    (cur : ℕ) (line rest : List Char)
    (hl : line = 'C' :: ':' :: rest ∨ line = 'c' :: ':' :: rest) :
    (toFloatQ (trimC rest) ≤ 0 →
      handleCommand stream cal cur line = (cal, cur, [], [.errCalWeight])) ∧
    (0 < toFloatQ (trimC rest) → calNetRaw stream cal cur = 0 →
      handleCommand stream cal cur line = (cal, cur + 20, [], [.errCalZero])) ∧
    (0 < toFloatQ (trimC rest) → calNetRaw stream cal cur ≠ 0 →
      (handleCommand stream cal cur line).2.2.2 =
        [.ackC (toFloatQ (trimC rest) / (calNetRaw stream cal cur : ℚ))] ∧
      (handleCommand stream cal cur line).2.2.1 =
        [.putCal (toFloatQ (trimC rest) / (calNetRaw stream cal cur : ℚ))]) := by
  refine ⟨?_, ?_, ?_⟩
  · intro hw
    rcases hl with hl | hl <;> subst hl <;>
      simp [handleCommand, startsWith2, hw]
  · intro hw hz
    have hw' : ¬toFloatQ (trimC rest) ≤ 0 := not_le.mpr hw
    rcases hl with hl | hl <;> subst hl <;>
      simp [handleCommand, startsWith2, hw', hz]
  · intro hw hz
    rcases hl with hl | hl <;> subst hl
    · rw [handleCommand_calibrate_pos stream cal cur _ rest (Or.inl rfl) hw hz]
      exact ⟨rfl, rfl⟩
    · rw [handleCommand_calibrate_pos stream cal cur _ rest (Or.inr rfl) hw hz]
      exact ⟨rfl, rfl⟩

/-- Witness for C2: `C:500` with tare 0 and a constant raw stream of 1000
(the spec scenario; the resulting factor is 500/1000). -/
theorem calibrate_success_witness :
    handleCommand (fun _ => 1000) ⟨1, 0⟩ 0 ('C' :: ':' :: ['5', '0', '0']) =
      ((⟨toFloatQ (trimC ['5', '0', '0']) /
          (calNetRaw (fun _ => 1000) ⟨1, 0⟩ 0 : ℚ), 0⟩ : CalibState), 0 + 20,
       [.putCal (toFloatQ (trimC ['5', '0', '0']) /
          (calNetRaw (fun _ => 1000) ⟨1, 0⟩ 0 : ℚ))],
       [.ackC (toFloatQ (trimC ['5', '0', '0']) /
          (calNetRaw (fun _ => 1000) ⟨1, 0⟩ 0 : ℚ))]) :=
  calibrate_success (fun _ => 1000) ⟨1, 0⟩ 0 _ ['5', '0', '0'] (Or.inl rfl)
    (by
      have hp : parseFloatRaw ['5', '0', '0'] = ⟨false, 500, 0, 0, 0, true⟩ :=
        rfl
      have ht : trimC ['5', '0', '0'] = ['5', '0', '0'] := rfl
      rw [ht]
      simp only [toFloatQ, hp]
      norm_num)
    (by decide)

/-- Witness for C3: `C:-10` is rejected with the weight error and mutates
nothing; `C:500` with net raw exactly 0 is rejected with the zero error
and mutates nothing. -/
theorem calibrate_error_atomic_witness :
    handleCommand (fun _ => 1000) ⟨1, 0⟩ 0 ('C' :: ':' :: ['-', '1', '0']) =
      (⟨1, 0⟩, 0, [], [.errCalWeight]) ∧
    handleCommand (fun _ => 5) ⟨1, 5⟩ 0 ('C' :: ':' :: ['5', '0', '0']) =
      (⟨1, 5⟩, 0 + 20, [], [.errCalZero]) :=
  ⟨(calibrate_error_atomic (fun _ => 1000) ⟨1, 0⟩ 0 _ ['-', '1', '0']
      (Or.inl rfl)).1
    (by
      have hp : parseFloatRaw ['-', '1', '0'] = ⟨true, 10, 0, 0, 0, true⟩ :=
        rfl
      have ht : trimC ['-', '1', '0'] = ['-', '1', '0'] := rfl
      rw [ht]
      simp only [toFloatQ, hp]
      norm_num),
   (calibrate_error_atomic (fun _ => 5) ⟨1, 5⟩ 0 _ ['5', '0', '0']
      (Or.inl rfl)).2.1
    (by
      have hp : parseFloatRaw ['5', '0', '0'] = ⟨false, 500, 0, 0, 0, true⟩ :=
        rfl
      have ht : trimC ['5', '0', '0'] = ['5', '0', '0'] := rfl
      rw [ht]
      simp only [toFloatQ, hp]
      norm_num)
    (by decide)⟩

/-! ## Lemmas about the inbound-byte drain -/

lemma drainBytes_append (stream : ℕ → ℤ) (a b : List Char) :
    ∀ st : SerialState,
      drainBytes stream st (a ++ b) =
        ((drainBytes stream (drainBytes stream st a).1 b).1,
         (drainBytes stream st a).2 ++
           (drainBytes stream (drainBytes stream st a).1 b).2) := by
  induction a with
  | nil => intro st; simp [drainBytes]
  | cons c cs ih =>
      intro st
      simp only [List.cons_append, drainBytes, List.append_eq]
      rw [ih]
      simp [List.append_assoc]

lemma drainByte_nonterm (stream : ℕ → ℤ) (st : SerialState) (c : Char)
    (hc : isTermB c = false) :
    drainByte stream st c =
      (⟨st.cal, st.cur, (accumCh (st.cmdLine, st.cmdOverflow) c).1,
        (accumCh (st.cmdLine, st.cmdOverflow) c).2⟩, []) := by
  obtain ⟨scal, scur, sl, so⟩ := st
  unfold drainByte accumCh
  rw [hc]
  cases so with
  | false => by_cases hl : sl.length < CMD_MAX_LEN <;> simp [hl]
  | true => simp

lemma drainBytes_nonterm (stream : ℕ → ℤ) (bs : List Char) :
    ∀ st : SerialState, (∀ c ∈ bs, isTermB c = false) →
      drainBytes stream st bs =
        (⟨st.cal, st.cur,
          (bs.foldl accumCh (st.cmdLine, st.cmdOverflow)).1,
          (bs.foldl accumCh (st.cmdLine, st.cmdOverflow)).2⟩, []) := by
  induction bs with
  | nil => intro st _; rfl
  | cons c cs ih =>
      intro st hbs
      have hc : isTermB c = false := hbs c (List.mem_cons_self c cs)
      have hcs : ∀ x ∈ cs, isTermB x = false :=
        fun x hx => hbs x (List.mem_cons_of_mem c hx)
      simp only [drainBytes]
      rw [drainByte_nonterm stream st c hc, ih _ hcs, List.foldl_cons]
      rfl

lemma foldl_accumCh_overflow (bs : List Char) (l : List Char) :
    bs.foldl accumCh (l, true) = (l, true) := by
  induction bs with
  | nil => rfl
  | cons c cs ih => rw [List.foldl_cons, show accumCh (l, true) c = (l, true) from rfl, ih]

lemma foldl_accumCh_spec (bs : List Char) :
    ∀ l : List Char, l.length ≤ CMD_MAX_LEN →
      bs.foldl accumCh (l, false) =
        ((l ++ bs).take CMD_MAX_LEN,
         decide (CMD_MAX_LEN < (l ++ bs).length)) := by
  induction bs with
  | nil =>
      intro l hl
      simp only [List.foldl_nil, List.append_nil]
      rw [List.take_of_length_le hl, decide_eq_false (not_lt.mpr hl)]
  | cons c cs ih =>
      intro l hl
      rw [List.foldl_cons]
      by_cases hl2 : l.length < CMD_MAX_LEN
      · have ha : accumCh (l, false) c = (l ++ [c], false) := by
          simp [accumCh, hl2]
        rw [ha, ih (l ++ [c]) (by simp; omega)]
        simp [List.append_assoc]
      · have hle : l.length = CMD_MAX_LEN := by omega
        have ha : accumCh (l, false) c = (l, true) := by
          simp [accumCh, hl2]
        rw [ha, foldl_accumCh_overflow]
        have h1 : (l ++ c :: cs).take CMD_MAX_LEN = l := by
          rw [← hle, List.take_left]
        have h2 : decide (CMD_MAX_LEN < (l ++ c :: cs).length) = true := by
          simp [List.length_append, hle]
        rw [h1, h2]

lemma handleCommand_no_cmdlen (stream : ℕ → ℤ) (cal : CalibState)
    (cur : ℕ) (line : List Char) :
    Resp.errCmdLen ∉ (handleCommand stream cal cur line).2.2.2 := by
  simp only [handleCommand]
  repeat' split
  all_goals simp

/-- C4: a line strictly longer than `CMD_MAX_LEN`, followed by a
terminator, produces exactly one `ERR:CMDLEN` response, dispatches
nothing to a command handler, leaves the calibration state and raw
cursor untouched, and resets the protocol to accumulating with an empty
buffer. -/
theorem cmd_overflow (stream : ℕ → ℤ) (cal : CalibState) (cur : ℕ)
    (line : List Char) (term : Char)
    (hterm : isTermB term = true)
    (hline : ∀ c ∈ line, isTermB c = false)
    (hlen : CMD_MAX_LEN < line.length) :
    drainBytes stream ⟨cal, cur, [], false⟩ (line ++ [term]) =
      (⟨cal, cur, [], false⟩, [.emit .errCmdLen]) := by
  have h1 : drainBytes stream ⟨cal, cur, [], false⟩ line =
      (⟨cal, cur, (line.foldl accumCh ([], false)).1,
        (line.foldl accumCh ([], false)).2⟩, []) :=
    drainBytes_nonterm stream line ⟨cal, cur, [], false⟩ hline
  have h2 : line.foldl accumCh (([] : List Char), false) =
      (line.take CMD_MAX_LEN, true) := by
    rw [foldl_accumCh_spec line [] (by simp)]
    simp [hlen]
  rw [drainBytes_append, h1, h2]
  simp only [drainBytes]
  simp [drainByte, hterm]

/-- C10: a line of exactly `CMD_MAX_LEN` non-terminator bytes followed
by a terminator is assembled in full and dispatched through the normal
path (trimmed, dispatched when non-empty) with no `ERR:CMDLEN`; and on
any non-terminator byte, the overflow flag ends up set exactly when it
was already set or the buffer already held `CMD_MAX_LEN` bytes. -/
theorem maxlen_accepted (stream : ℕ → ℤ) (cal : CalibState) (cur : ℕ)
    (line : List Char) (term : Char)
    (hterm : isTermB term = true)
    (hline : ∀ c ∈ line, isTermB c = false)
    (hlen : line.length = CMD_MAX_LEN) :
    ((drainBytes stream ⟨cal, cur, [], false⟩ (line ++ [term])).2 =
      (if 0 < (trimC line).length then
        Ev.dispatch (trimC line) ::
          (handleCommand stream cal cur (trimC line)).2.2.2.map Ev.emit
       else []) ∧
     Ev.emit Resp.errCmdLen ∉
       (drainBytes stream ⟨cal, cur, [], false⟩ (line ++ [term])).2) ∧
    (∀ (st : SerialState) (c : Char), isTermB c = false →
      ((drainByte stream st c).1.cmdOverflow = true ↔
        (st.cmdOverflow = true ∨ CMD_MAX_LEN ≤ st.cmdLine.length))) := by
  constructor
  · have h1 : drainBytes stream ⟨cal, cur, [], false⟩ line =
        (⟨cal, cur, (line.foldl accumCh ([], false)).1,
          (line.foldl accumCh ([], false)).2⟩, []) :=
      drainBytes_nonterm stream line ⟨cal, cur, [], false⟩ hline
    have h2 : line.foldl accumCh (([] : List Char), false) = (line, false) := by
      rw [foldl_accumCh_spec line [] (by simp)]
      simp [hlen]
    have hev : (drainBytes stream ⟨cal, cur, [], false⟩ (line ++ [term])).2 =
        (if 0 < (trimC line).length then
          Ev.dispatch (trimC line) ::
            (handleCommand stream cal cur (trimC line)).2.2.2.map Ev.emit
         else []) := by
      rw [drainBytes_append, h1, h2]
      simp only [drainBytes]
      by_cases ht : 0 < (trimC line).length
      · simp [drainByte, hterm, ht]
      · simp [drainByte, hterm, ht]
    refine ⟨hev, ?_⟩
    rw [hev]
    split
    · simp only [List.mem_cons, List.mem_map]
      rintro (h | ⟨r, hr, he⟩)
      · exact Ev.noConfusion h
      · exact handleCommand_no_cmdlen stream cal cur (trimC line)
          (Ev.emit.inj he ▸ hr)
    · simp
  · intro st c hc
    rw [drainByte_nonterm stream st c hc]
    by_cases ho : st.cmdOverflow
    · simp [accumCh, ho]
    · by_cases hl : st.cmdLine.length < CMD_MAX_LEN
      · simp [accumCh, ho, hl]
      · simp [accumCh, ho, hl]
        omega

/-- Witness for C4: 81 bytes of `a` followed by a newline. -/
theorem cmd_overflow_witness :
    drainBytes (fun _ => 0) ⟨⟨1, 0⟩, 0, [], false⟩
        (List.replicate 81 'a' ++ ['\n']) =
      (⟨⟨1, 0⟩, 0, [], false⟩, [.emit .errCmdLen]) :=
  cmd_overflow (fun _ => 0) ⟨1, 0⟩ 0 (List.replicate 81 'a') '\n'
    (by decide)
    (fun c hc => by rw [List.eq_of_mem_replicate hc]; decide)
    (by decide)

/-- Witness for C10: 80 bytes of `a` followed by a newline are accepted
and dispatched, and a byte arriving on a buffer already holding 80 bytes
sets the overflow flag. -/
theorem maxlen_accepted_witness :
    ((drainBytes (fun _ => 0) ⟨⟨1, 0⟩, 0, [], false⟩
        (List.replicate 80 'a' ++ ['\n'])).2 =
      (if 0 < (trimC (List.replicate 80 'a')).length then
        Ev.dispatch (trimC (List.replicate 80 'a')) ::
          (handleCommand (fun _ => 0) ⟨1, 0⟩ 0
            (trimC (List.replicate 80 'a'))).2.2.2.map Ev.emit
       else []) ∧
     Ev.emit Resp.errCmdLen ∉
       (drainBytes (fun _ => 0) ⟨⟨1, 0⟩, 0, [], false⟩
         (List.replicate 80 'a' ++ ['\n'])).2) ∧
    ((drainByte (fun _ => 0) ⟨⟨1, 0⟩, 0, List.replicate 80 'a', false⟩
        'b').1.cmdOverflow = true ↔
      ((⟨⟨1, 0⟩, 0, List.replicate 80 'a', false⟩ : SerialState).cmdOverflow
          = true ∨
        CMD_MAX_LEN ≤
          (⟨⟨1, 0⟩, 0, List.replicate 80 'a', false⟩ :
            SerialState).cmdLine.length)) :=
  ⟨(maxlen_accepted (fun _ => 0) ⟨1, 0⟩ 0 (List.replicate 80 'a') '\n'
      (by decide)
      (fun c hc => by rw [List.eq_of_mem_replicate hc]; decide)
      (by decide)).1,
   (maxlen_accepted (fun _ => 0) ⟨1, 0⟩ 0 (List.replicate 80 'a') '\n'
      (by decide)
      (fun c hc => by rw [List.eq_of_mem_replicate hc]; decide)
      (by decide)).2
     ⟨⟨1, 0⟩, 0, List.replicate 80 'a', false⟩ 'b' (by decide)⟩
